import Mathlib

/-!
Verification of the ssh-manager repository's core logic: the clipboard
method resolution / fallback protocol of `src/utils/clipboard-simple.js`
and the key-store operations of `src/utils/ssh.js`.  External effects
(PATH probes, subprocess attempts, the ssh-keygen binary, the filesystem)
are modelled by explicit environments/oracles; the control flow of each
JavaScript function is translated statement by statement.
-/

namespace SSHMan

/-! ### String helpers with JavaScript semantics -/

/-- ASCII whitespace recognised by the trims we model. -/
def isWsChar (c : Char) : Bool :=
  c = ' ' || c = '\t' || c = '\n' || c = '\r'

/-- `listStartsWith l p` : `p` is a prefix of `l` (character lists). -/
def listStartsWith : List Char → List Char → Bool
  | _, [] => true
  | [], _ :: _ => false
  | c :: cs, p :: ps => c = p && listStartsWith cs ps

/-- Substring containment on character lists (JS `String.includes`). -/
def listContainsSub : List Char → List Char → Bool
  | [], pat => listStartsWith [] pat
  | c :: rest, pat => listStartsWith (c :: rest) pat || listContainsSub rest pat

/-- JS `startsWith`. -/
def strStartsWith (s pre : String) : Bool :=
  listStartsWith s.toList pre.toList

/-- JS `endsWith`. -/
def strEndsWith (s suf : String) : Bool :=
  listStartsWith s.toList.reverse suf.toList.reverse

/-- JS `includes`. -/
def strContains (s pat : String) : Bool :=
  listContainsSub s.toList pat.toList

/-- JS `toLowerCase` (ASCII). -/
def strToLower (s : String) : String :=
  String.mk (s.toList.map Char.toLower)

/-- Trim on character lists. -/
def trimList (l : List Char) : List Char :=
  ((l.dropWhile isWsChar).reverse.dropWhile isWsChar).reverse

/-- JS `trim` (ASCII whitespace). -/
def strTrim (s : String) : String :=
  String.mk (trimList s.toList)

/-- JS `String.replace` with a string pattern replaces only the first
occurrence of the pattern (helper on character lists). -/
def replaceFirstAux : List Char → List Char → List Char → List Char
  | [], pat, repl => if pat.isEmpty then repl else []
  | c :: rest, pat, repl =>
    if listStartsWith (c :: rest) pat then repl ++ (c :: rest).drop pat.length
    else c :: replaceFirstAux rest pat repl

/-- JS `s.replace(pat, repl)` for string patterns: first occurrence only. -/
def strReplaceFirst (s pat repl : String) : String :=
  String.mk (replaceFirstAux s.toList pat.toList repl.toList)

/-- First whitespace-delimited token of a string. -/
def firstToken (s : String) : String :=
  String.mk ((s.toList.dropWhile isWsChar).takeWhile (fun c => !isWsChar c))

/-- `path.join` for the simple relative names used by the key store. -/
def pathJoin (dir name : String) : String :=
  dir ++ "/" ++ name

/-! ### Clipboard model (`src/utils/clipboard-simple.js`) -/

/-- The clipboard methods (`ClipboardMethod` values) known to
`SimpleClipboardManager`. -/
inductive Method
  | pbcopy
  | xclip
  | xsel
  | wlCopy
  | termuxClipboardSet
  | powershellClipboard
  | clip
  | wslClipboard
  | kdeClipboard
  | gnomeClipboard
  deriving DecidableEq, Repr

/-- The executable name probed with `which` for the process-pipe tools. -/
def Method.toolName : Method → String
  | .pbcopy => "pbcopy"
  | .xclip => "xclip"
  | .xsel => "xsel"
  | .wlCopy => "wl-copy"
  | .termuxClipboardSet => "termux-clipboard-set"
  | .powershellClipboard => "powershell"
  | .clip => "clip"
  | .wslClipboard => "clip.exe"
  | .kdeClipboard => "qdbus"
  | .gnomeClipboard => "gdbus"

/-- Operating system tag as reported by `os.platform()`. -/
inductive OSTag
  | darwin
  | linux
  | win32
  | otherOS
  deriving DecidableEq, Repr

/-- Environment consulted by the clipboard resolver: PATH probes
(`which`/`where` exit status), WSL detection (`/proc/version` contents),
desktop-environment variables, and the PowerShell cmdlet probe. -/
structure ClipEnv where
  onPath : String → Bool
  isWSL : Bool
  desktopEnv : String
  psCmdlet : Bool

/-- The fixed probe order of generic Linux tools (`linuxTools` array). -/
def linuxTools : List Method :=
  [Method.xclip, Method.xsel, Method.wlCopy, Method.termuxClipboardSet, Method.pbcopy]

/-- The `for (const tool of linuxTools)` probe loop: push each tool whose
`which` probe succeeds, preserving order. -/
def probeTools (env : ClipEnv) : List Method → List Method
  | [] => []
  | t :: ts =>
    if env.onPath t.toolName then t :: probeTools env ts else probeTools env ts

/-- `getLinuxMethods` (clipboard-simple.js lines 591-641). -/
def getLinuxMethods (env : ClipEnv) : List Method :=
  if env.isWSL then [Method.wslClipboard]
  else
    let ms := probeTools env linuxTools
    let de := strToLower env.desktopEnv
    let ms2 :=
      if strContains de "kde" && env.onPath "qdbus" then ms ++ [Method.kdeClipboard] else ms
    if strContains de "gnome" && env.onPath "gdbus" then ms2 ++ [Method.gnomeClipboard] else ms2

/-- `getMacOSMethods`: probe `pbcopy`, fall back to it unconditionally. -/
def getMacOSMethods (env : ClipEnv) : List Method :=
  let ms := if env.onPath "pbcopy" then [Method.pbcopy] else []
  if ms.length > 0 then ms else [Method.pbcopy]

/-- `getWindowsMethods`: PowerShell preferred, then `clip`, with a fixed
fallback when neither probe succeeds. -/
def getWindowsMethods (env : ClipEnv) : List Method :=
  let ms :=
    (if env.psCmdlet then [Method.powershellClipboard] else []) ++
      (if env.onPath "clip" then [Method.clip] else [])
  if ms.length > 0 then ms else [Method.powershellClipboard, Method.clip]

/-- Outcome of one `copyWithFallback(text, method)` attempt.
`commandNotFound` is the rejection whose message starts with
"Command not found" (the `which`/`where` probe failed); every other
rejection (unknown method, non-zero exit, process error, timeout) is
`otherFailure`. -/
inductive AttemptResult
  | success
  | commandNotFound
  | otherFailure
  deriving DecidableEq, Repr

/-- Environment of one `copy` call: platform, the resolver environment
before and after the Linux auto-install flow, the results of
`checkLinuxClipboardTools` and `installLinuxClipboardToolsQuietly`, and
oracles giving the outcome of the first attempt / post-install retry of
each method. -/
structure CopyEnv where
  platform : OSTag
  clip : ClipEnv
  clipAfter : ClipEnv
  hasWorkingTools : Bool
  installOk : Bool
  attempt : Method → AttemptResult
  retry : Method → AttemptResult

/-- `getFallbackMethods` dispatch on `os.platform()`. -/
def getFallbackMethods (env : CopyEnv) : List Method :=
  match env.platform with
  | .darwin => getMacOSMethods env.clip
  | .linux => getLinuxMethods env.clip
  | .win32 => getWindowsMethods env.clip
  | .otherOS => []

/-- A JavaScript value passed to `copy`: a string, or anything else. -/
inductive JSVal
  | str (s : String)
  | nonString
  deriving DecidableEq, Repr

/-- The `!text || typeof text !== 'string'` guard: valid iff a nonempty
string (the empty string is falsy in JavaScript). -/
def isValidText : JSVal → Bool
  | .str s => !(s == "")
  | .nonString => false

/-- Errors thrown by the clipboard manager. -/
inductive CopyError
  | invalidText
  | clearFailed (inner : CopyError)
  deriving DecidableEq, Repr

/-- A value returned by `copy`: `copied m` is `{method: m, success: true}`;
`manual t` is the `handleClipboardFailure` result
`{method: 'manual', success: false, text: t, instructions: ...}`. -/
inductive CopyOutcome
  | copied (method : Method)
  | manual (text : String)
  deriving DecidableEq, Repr

/-- The `success` field of a `copy` result. -/
def CopyOutcome.successFlag : CopyOutcome → Bool
  | .copied _ => true
  | .manual _ => false

/-- The `text` field of a `copy` result (present only on manual fallback). -/
def CopyOutcome.textField : CopyOutcome → Option String
  | .copied _ => none
  | .manual t => some t

/-- The `method` field of a successful `copy` result. -/
def CopyOutcome.methodField : CopyOutcome → Option Method
  | .copied m => some m
  | .manual _ => none

/-- `handleClipboardFailure(text)` (lines 1448-1475): print manual-copy
instructions and return `{method: 'manual', success: false, text}`. -/
def handleClipboardFailure (text : String) : CopyOutcome :=
  CopyOutcome.manual text

/-- The main `for (const method of methods)` loop of `copy`
(lines 722-744), with the Linux auto-install retry: on a
"Command not found" failure on Linux, install and — if installation
succeeded — retry the same method once before moving on.  Returns the
ordered list of `copyWithFallback` invocations and the winning method. -/
def tryMethods (env : CopyEnv) : List Method → List Method × Option Method
  | [] => ([], none)
  | m :: ms =>
    match env.attempt m with
    | AttemptResult.success => ([m], some m)
    | AttemptResult.commandNotFound =>
      if env.platform = OSTag.linux ∧ env.installOk = true then
        match env.retry m with
        | AttemptResult.success => ([m, m], some m)
        | _ =>
          let r := tryMethods env ms
          (m :: m :: r.1, r.2)
      else
        let r := tryMethods env ms
        (m :: r.1, r.2)
    | AttemptResult.otherFailure =>
      let r := tryMethods env ms
      (m :: r.1, r.2)

/-- The plain first-success loop used on the freshly installed Linux
methods (lines 706-714): no install retry, failures just continue. -/
def firstSuccess (env : CopyEnv) : List Method → List Method × Option Method
  | [] => ([], none)
  | m :: ms =>
    match env.attempt m with
    | AttemptResult.success => ([m], some m)
    | _ =>
      let r := firstSuccess env ms
      (m :: r.1, r.2)

/-- Does the loop of `tryMethods` stop at `m`?  True when the first
attempt succeeds, or when it fails with "Command not found" on Linux,
installation succeeds and the retry succeeds. -/
def methodWins (env : CopyEnv) (m : Method) : Bool :=
  match env.attempt m with
  | AttemptResult.success => true
  | AttemptResult.commandNotFound =>
    if env.platform = OSTag.linux ∧ env.installOk = true then
      decide (env.retry m = AttemptResult.success)
    else false
  | AttemptResult.otherFailure => false

/-- The `copyWithFallback` invocations `tryMethods` performs on a method
it does not stop at, and on the method it stops at. -/
def attemptsOf (env : CopyEnv) (m : Method) : List Method :=
  match env.attempt m with
  | AttemptResult.commandNotFound =>
    if env.platform = OSTag.linux ∧ env.installOk = true then [m, m] else [m]
  | _ => [m]

/-- `SimpleClipboardManager.copy` (lines 685-748).  Returns the ordered
trace of `copyWithFallback` invocations together with the thrown error or
returned result. -/
def copy (env : CopyEnv) (text : JSVal) : List Method × Except CopyError CopyOutcome :=
  match text with
  | JSVal.nonString => ([], Except.error CopyError.invalidText)
  | JSVal.str s =>
    if s = "" then ([], Except.error CopyError.invalidText)
    else
      let methods := getFallbackMethods env
      if env.platform = OSTag.linux ∧ env.hasWorkingTools = false then
        if env.installOk then
          let r := firstSuccess env (getLinuxMethods env.clipAfter)
          match r.2 with
          | some m => (r.1, Except.ok (CopyOutcome.copied m))
          | none => (r.1, Except.ok (handleClipboardFailure s))
        else ([], Except.ok (handleClipboardFailure s))
      else
        let r := tryMethods env methods
        match r.2 with
        | some m => (r.1, Except.ok (CopyOutcome.copied m))
        | none => (r.1, Except.ok (handleClipboardFailure s))

/-- `SimpleClipboardManager.clear` (lines 988-995): delegate to
`copy('')`, wrapping any thrown error. -/
def clear (env : CopyEnv) : Except CopyError Bool :=
  match (copy env (JSVal.str "")).2 with
  | Except.ok _ => Except.ok true
  | Except.error e => Except.error (CopyError.clearFailed e)

/-! ### Key store model (`src/utils/ssh.js`) -/

/-- A file in the modelled filesystem: permission bits and content. -/
structure FSFile where
  perm : Nat
  content : String
  deriving DecidableEq, Repr

/-- The filesystem: a partial map from paths to files. -/
def FS := String → Option FSFile

/-- `fs.existsSync`. -/
def fsExists (fs : FS) (p : String) : Bool :=
  (fs p).isSome

/-- Write (create or overwrite) a file. -/
def fsSet (fs : FS) (p : String) (f : FSFile) : FS :=
  fun q => if q = p then some f else fs q

/-- `fs.unlinkSync`. -/
def fsRemove (fs : FS) (p : String) : FS :=
  fun q => if q = p then none else fs q

/-- `fs.chmodSync`: fails (`none`) when the path does not exist. -/
def fsChmod (fs : FS) (p : String) (mode : Nat) : Option FS :=
  match fs p with
  | some f => some (fsSet fs p { f with perm := mode })
  | none => none

/-- Kinds of errors the key store throws; the outer
`SSH key generation failed: ...` rewrapping changes only the message,
never the kind. -/
inductive GenError
  | alreadyExists (path : String)
  | validation
  | keygenFailed
  | chmodFailed
  | filesNotCreated
  | notFound (what : String)
  deriving DecidableEq, Repr

/-- The `supportedTypes` array of `validateKeyParameters`. -/
def supportedTypes : List String :=
  ["rsa", "ed25519", "ecdsa"]

/-- `SSHManager.validateKeyParameters` (ssh.js lines 132-145). -/
def validateKeyParameters (keyType : String) (keySize : Nat) : Except GenError Unit :=
  if keyType ∉ supportedTypes then Except.error GenError.validation
  else if keyType = "rsa" ∧ keySize ∉ ([2048, 3072, 4096] : List Nat) then
    Except.error GenError.validation
  else if keyType = "ecdsa" ∧ keySize ∉ ([256, 384, 521] : List Nat) then
    Except.error GenError.validation
  else Except.ok ()

/-- `SSHManager.buildSSHKeygenCommand` (ssh.js lines 108-127): the single
shell command line handed to `execSync`, assembled by string
concatenation of the user-supplied parameters. -/
def buildSSHKeygenCommand (keyType : String) (keySize : Nat)
    (privateKeyPath comment passphrase : String) : String :=
  let c1 := "ssh-keygen -t " ++ keyType
  let c2 := if keyType = "rsa" ∨ keyType = "ecdsa" then c1 ++ " -b " ++ toString keySize else c1
  let c3 := c2 ++ " -f \"" ++ privateKeyPath ++ "\""
  let c4 := c3 ++ " -C \"" ++ comment ++ "\""
  if passphrase ≠ "" then c4 ++ " -N \"" ++ passphrase ++ "\"" else c4 ++ " -N \"\""

/-- Environment of a `generateKeyPair` call: whether the host is POSIX
(`process.platform !== 'win32'`), whether the `ssh-keygen` subprocess
exits 0, the files it writes on success (per its contract in the spec it
writes both `path` and `path + ".pub"`), the filesystem it may leave
behind on failure, and the fingerprint read-back. -/
structure GenEnv where
  posix : Bool
  keygenOk : Bool
  keygenPriv : FSFile
  keygenPub : FSFile
  keygenFailFS : FS → FS
  fingerprint : String

/-- The record returned by `generateKeyPair`. -/
structure GenResult where
  privateKeyPath : String
  publicKeyPath : String
  keyType : String
  keySize : Nat
  fingerprint : String
  deriving Repr

/-- The tail of `generateKeyPair` (ssh.js lines 87-98): verify both files
exist, then return the result record. -/
def finishGen (env : GenEnv) (priv pub keyType : String) (keySize : Nat) (fs : FS) :
    FS × Except GenError GenResult :=
  if !fsExists fs priv || !fsExists fs pub then (fs, Except.error GenError.filesNotCreated)
  else
    (fs, Except.ok { privateKeyPath := priv, publicKeyPath := pub,
                     keyType := keyType, keySize := keySize,
                     fingerprint := env.fingerprint })

/-- `SSHManager.generateKeyPair` (ssh.js lines 44-103): existence check,
parameter validation, `ssh-keygen` invocation, POSIX permission setting
(0600 private / 0644 public), verification, result. -/
def generateKeyPair (env : GenEnv) (dir : String) (fs : FS) (keyType : String)
    (keySize : Nat) (keyName comment passphrase : String) (overwrite : Bool) :
    FS × Except GenError GenResult :=
  let privateKeyPath := pathJoin dir keyName
  let publicKeyPath := privateKeyPath ++ ".pub"
  if fsExists fs privateKeyPath && !overwrite then
    (fs, Except.error (GenError.alreadyExists privateKeyPath))
  else
    match validateKeyParameters keyType keySize with
    | Except.error e => (fs, Except.error e)
    | Except.ok _ =>
      let _cmd := buildSSHKeygenCommand keyType keySize privateKeyPath comment passphrase
      if !env.keygenOk then (env.keygenFailFS fs, Except.error GenError.keygenFailed)
      else
        let fs1 := fsSet (fsSet fs privateKeyPath env.keygenPriv) publicKeyPath env.keygenPub
        if env.posix then
          match fsChmod fs1 privateKeyPath 0o600 with
          | none => (fs1, Except.error GenError.chmodFailed)
          | some fs2 =>
            match fsChmod fs2 publicKeyPath 0o644 with
            | none => (fs2, Except.error GenError.chmodFailed)
            | some fs3 => finishGen env privateKeyPath publicKeyPath keyType keySize fs3
        else finishGen env privateKeyPath publicKeyPath keyType keySize fs1

/-- `SSHManager.detectKeyType` (ssh.js lines 217-222). -/
def detectKeyType (publicKey : String) : String :=
  if strStartsWith publicKey "ssh-rsa" then "rsa"
  else if strStartsWith publicKey "ssh-ed25519" then "ed25519"
  else if strStartsWith publicKey "ecdsa-sha2-" then "ecdsa"
  else "unknown"

/-- One record produced by `listKeys` (timestamps and the deferred
fingerprint are stat metadata outside the model). -/
structure KeyRecord where
  name : String
  publicKeyPath : String
  privateKeyPath : String
  keyExists : Bool
  size : Nat
  type : String
  deriving DecidableEq, Repr

/-- The `for (const file of files)` loop of `listKeys`
(ssh.js lines 186-206): for each directory entry ending in `.pub`,
stat/read the public file (throwing if it vanished), derive the private
path with `replace('.pub', '')`, and record existence of the private
file instead of failing when it is missing. -/
def listKeysGo (dir : String) (fs : FS) : List String → Except GenError (List KeyRecord)
  | [] => Except.ok []
  | file :: rest =>
    if strEndsWith file ".pub" then
      let publicKeyPath := pathJoin dir file
      let privateKeyPath := strReplaceFirst publicKeyPath ".pub" ""
      match fs publicKeyPath with
      | none => Except.error (GenError.notFound publicKeyPath)
      | some f =>
        let r : KeyRecord :=
          { name := strReplaceFirst file ".pub" ""
            publicKeyPath := publicKeyPath
            privateKeyPath := privateKeyPath
            keyExists := fsExists fs privateKeyPath
            size := f.content.length
            type := detectKeyType (strTrim f.content) }
        match listKeysGo dir fs rest with
        | Except.ok ks => Except.ok (r :: ks)
        | Except.error e => Except.error e
    else listKeysGo dir fs rest

/-- `SSHManager.listKeys` (ssh.js lines 181-212): `listing` is what
`fs.readdirSync` returns for the key directory. -/
def listKeys (dir : String) (listing : List String) (fs : FS) :
    Except GenError (List KeyRecord) :=
  listKeysGo dir fs listing

/-- `SSHManager.deleteKey` (ssh.js lines 227-252): unlink whichever of
the two files exist, collect the deleted parts, and throw `Key not found`
when neither existed. -/
def deleteKey (dir : String) (fs : FS) (keyName : String) :
    FS × Except GenError (List String × String) :=
  let privateKeyPath := pathJoin dir keyName
  let publicKeyPath := privateKeyPath ++ ".pub"
  let st1 :=
    if fsExists fs privateKeyPath then (fsRemove fs privateKeyPath, ["private"])
    else (fs, ([] : List String))
  let st2 :=
    if fsExists st1.1 publicKeyPath then (fsRemove st1.1 publicKeyPath, st1.2 ++ ["public"])
    else st1
  if st2.2 = [] then (st2.1, Except.error (GenError.notFound keyName))
  else (st2.1, Except.ok (st2.2, keyName))

/-! ### Specification-side definitions (for the refinement claims) -/

/-- The specification's set of invalid `(type, size)` pairs: type outside
`{rsa, ed25519, ecdsa}`, or an rsa size outside `{2048, 3072, 4096}`, or
an ecdsa size outside `{256, 384, 521}`. -/
def invalidPair (keyType : String) (keySize : Nat) : Prop :=
  keyType ∉ (["rsa", "ed25519", "ecdsa"] : List String) ∨
    (keyType = "rsa" ∧ keySize ∉ ([2048, 3072, 4096] : List Nat)) ∨
    (keyType = "ecdsa" ∧ keySize ∉ ([256, 384, 521] : List Nat))

/-- Key-type classification exactly as the specification words it:
by the first whitespace-delimited token of the content
(`ssh-rsa` → rsa, `ssh-ed25519` → ed25519, `ecdsa-sha2-*` → ecdsa,
else unknown). -/
def specDetectKeyType (content : String) : String :=
  if firstToken content = "ssh-rsa" then "rsa"
  else if firstToken content = "ssh-ed25519" then "ed25519"
  else if strStartsWith (firstToken content) "ecdsa-sha2-" then "ecdsa"
  else "unknown"

/-- `pat` occurs in `p` exactly once, as the trailing suffix: no earlier
position of `p` starts an occurrence of `pat`. -/
def onlySuffixOccurrence (p pat : String) : Prop :=
  pat.toList ≠ [] ∧
    ∃ q : List Char, p.toList = q ++ pat.toList ∧
      ∀ i < q.length, listStartsWith (p.toList.drop i) pat.toList = false

/-! ### Concrete environments used by the witnesses and counterexamples -/

/-- Resolver environment with an empty PATH, no WSL, no desktop
environment. -/
def bareClipEnv : ClipEnv :=
  { onPath := fun _ => false, isWSL := false, desktopEnv := "", psCmdlet := false }

/-- macOS environment in which every clipboard attempt fails because no
backing executable is on PATH. -/
def failEnv : CopyEnv :=
  { platform := OSTag.darwin
    clip := bareClipEnv
    clipAfter := bareClipEnv
    hasWorkingTools := true
    installOk := false
    attempt := fun _ => AttemptResult.commandNotFound
    retry := fun _ => AttemptResult.commandNotFound }

/-- Linux environment for the sequential-trial witness: `xclip` is
installed but its attempt fails with a non-zero exit, `xsel` succeeds. -/
def seqEnv : CopyEnv :=
  { platform := OSTag.linux
    clip := { bareClipEnv with onPath := fun t => t = "xclip" || t = "xsel" }
    clipAfter := bareClipEnv
    hasWorkingTools := true
    installOk := false
    attempt := fun m =>
      match m with
      | Method.xsel => AttemptResult.success
      | _ => AttemptResult.otherFailure
    retry := fun _ => AttemptResult.otherFailure }

/-- WSL resolver environment. -/
def wslClipEnv : ClipEnv :=
  { onPath := fun _ => true, isWSL := true, desktopEnv := "", psCmdlet := false }

/-- KDE desktop resolver environment with `xclip` and `qdbus` present. -/
def kdeClipEnv : ClipEnv :=
  { onPath := fun t => t = "xclip" || t = "qdbus"
    isWSL := false
    desktopEnv := "KDE"
    psCmdlet := false }

/-- POSIX generation environment whose `ssh-keygen` succeeds and writes
both files with the default modes the tool uses. -/
def genEnvPosix : GenEnv :=
  { posix := true
    keygenOk := true
    keygenPriv := { perm := 0o600, content := "PRIVATE" }
    keygenPub := { perm := 0o644, content := "ssh-ed25519 AAAA user@host" }
    keygenFailFS := fun fs => fs
    fingerprint := "SHA256:abc" }

/-- Windows generation environment (permission step skipped). -/
def genEnvWin : GenEnv :=
  { genEnvPosix with posix := false
                     keygenPriv := { perm := 0o666, content := "PRIVATE" }
                     keygenPub := { perm := 0o666, content := "ssh-ed25519 AAAA user@host" } }

/-- The empty filesystem. -/
def fsEmpty : FS := fun _ => none

/-- Filesystem holding a single private key at `d/k`. -/
def fsOneKey : FS :=
  fun p => if p = "d/k" then some { perm := 0o600, content := "PRIVATE" } else none

/-- Filesystem for the `listKeys` counterexample: one public-key file
whose name contains `.pub` also before the final suffix. -/
def fsDotPub : FS :=
  fun p => if p = "d/a.pubx.pub" then some { perm := 0o644, content := "ssh-rsa AAA" } else none

/-- Filesystem for the `listKeys` witness: a public key at `d/k1.pub`
with no matching private key. -/
def fsOrphan : FS :=
  fun p => if p = "d/k1.pub" then some { perm := 0o644, content := "ssh-rsa AAA" } else none

/-- Filesystem with a complete key pair `d/k` / `d/k.pub`. -/
def fsPair : FS :=
  fun p =>
    if p = "d/k" then some { perm := 0o600, content := "PRIVATE" }
    else if p = "d/k.pub" then some { perm := 0o644, content := "ssh-rsa AAA" }
    else none

/-- Filesystem with a public key whose first token strictly extends
`ssh-rsa`. -/
def fsBadType : FS :=
  fun p => if p = "d/x.pub" then some { perm := 0o644, content := "ssh-rsaEXTRA AAAA" } else none

/-! ### Helper lemmas -/

theorem probeTools_eq_filter (env : ClipEnv) (ts : List Method) :
    probeTools env ts = ts.filter (fun t => env.onPath t.toolName) := by
  induction ts with
  | nil => rfl
  | cons t ts ih =>
    by_cases h : env.onPath t.toolName = true
    · simp [probeTools, h, ih]
    · rw [Bool.not_eq_true] at h
      simp [probeTools, h, ih]

theorem mem_attemptsOf (env : CopyEnv) (x y : Method) (h : x ∈ attemptsOf env y) : x = y := by
  unfold attemptsOf at h
  cases henv : env.attempt y <;> rw [henv] at h <;> simp at h <;> try exact h
  split at h <;> simp at h <;> exact h

theorem tryMethods_eq (env : CopyEnv) :
    ∀ (ms : List Method) (m : Method) (rest : List Method),
      ms.dropWhile (fun x => !methodWins env x) = m :: rest →
      tryMethods env ms =
        ((ms.takeWhile (fun x => !methodWins env x)).flatMap (attemptsOf env)
            ++ attemptsOf env m, some m) := by
  intro ms
  induction ms with
  | nil => intro m rest h; simp [List.dropWhile] at h
  | cons a tl ih =>
    intro m rest h
    by_cases hw : methodWins env a = true
    · rw [List.dropWhile_cons] at h
      rw [hw] at h
      simp only [Bool.not_true, Bool.false_eq_true, if_false, List.cons.injEq] at h
      obtain ⟨rfl, rfl⟩ := h
      rw [List.takeWhile_cons]
      rw [hw]
      simp only [Bool.not_true, Bool.false_eq_true, if_false, List.takeWhile_nil,
        List.flatMap_nil, List.nil_append]
      simp only [methodWins] at hw
      simp only [tryMethods, attemptsOf]
      cases ha : env.attempt a with
      | success => rfl
      | otherFailure => rw [ha] at hw; cases hw
      | commandNotFound =>
        simp only [ha] at hw ⊢
        by_cases hp : env.platform = OSTag.linux ∧ env.installOk = true
        · rw [if_pos hp] at hw
          rw [if_pos hp, if_pos hp]
          have hr : env.retry a = AttemptResult.success := of_decide_eq_true hw
          simp only [hr]
        · rw [if_neg hp] at hw; cases hw
    · rw [Bool.not_eq_true] at hw
      rw [List.dropWhile_cons] at h
      rw [hw] at h
      simp only [Bool.not_false, if_true] at h
      have ihh := ih m rest h
      rw [List.takeWhile_cons]
      rw [hw]
      simp only [Bool.not_false, if_true, List.flatMap_cons]
      simp only [methodWins] at hw
      simp only [tryMethods]
      cases ha : env.attempt a with
      | success => rw [ha] at hw; cases hw
      | otherFailure =>
        simp only [ha, ihh, attemptsOf]
        simp
      | commandNotFound =>
        simp only [ha] at hw ⊢
        by_cases hp : env.platform = OSTag.linux ∧ env.installOk = true
        · rw [if_pos hp] at hw
          rw [if_pos hp]
          cases hr : env.retry a with
          | success => rw [hr] at hw; simp at hw
          | commandNotFound =>
            simp only [hr, ihh, attemptsOf, ha, if_pos hp]
            simp
          | otherFailure =>
            simp only [hr, ihh, attemptsOf, ha, if_pos hp]
            simp
        · rw [if_neg hp] at hw
          rw [if_neg hp]
          simp only [ihh, attemptsOf, ha, if_neg hp]
          simp

theorem methodWins_false (env : CopyEnv) (m : Method)
    (ha : env.attempt m ≠ AttemptResult.success)
    (hr : env.retry m ≠ AttemptResult.success) : methodWins env m = false := by
  cases h : env.attempt m with
  | success => exact absurd h ha
  | otherFailure => simp [methodWins, h]
  | commandNotFound =>
    simp only [methodWins, h]
    by_cases hp : env.platform = OSTag.linux ∧ env.installOk = true
    · rw [if_pos hp]; exact decide_eq_false hr
    · rw [if_neg hp]

theorem tryMethods_none (env : CopyEnv) (h : ∀ m, methodWins env m = false) :
    ∀ ms : List Method, (tryMethods env ms).2 = none := by
  intro ms
  induction ms with
  | nil => rfl
  | cons a tl ih =>
    have hw := h a
    simp only [methodWins] at hw
    simp only [tryMethods]
    cases ha : env.attempt a with
    | success => rw [ha] at hw; cases hw
    | otherFailure => simp only [ha]; exact ih
    | commandNotFound =>
      simp only [ha] at hw ⊢
      by_cases hp : env.platform = OSTag.linux ∧ env.installOk = true
      · rw [if_pos hp] at hw
        rw [if_pos hp]
        cases hr : env.retry a with
        | success => rw [hr] at hw; simp at hw
        | commandNotFound => simp only [hr]; exact ih
        | otherFailure => simp only [hr]; exact ih
      · rw [if_neg hp] at hw
        rw [if_neg hp]
        exact ih

theorem firstSuccess_none (env : CopyEnv)
    (h : ∀ m, env.attempt m ≠ AttemptResult.success) :
    ∀ ms : List Method, (firstSuccess env ms).2 = none := by
  intro ms
  induction ms with
  | nil => rfl
  | cons a tl ih =>
    simp only [firstSuccess]
    cases ha : env.attempt a with
    | success => exact absurd ha (h a)
    | commandNotFound => simp only [ha]; exact ih
    | otherFailure => simp only [ha]; exact ih

/-! ### Claim theorems -/

/-- C3: on Linux the resolved clipboard-method list is exactly
`[wsl-clipboard]` under WSL; otherwise it is the subset of
`[xclip, xsel, wl-copy, termux-clipboard-set, pbcopy]` present on PATH in
that fixed order, followed by `kde-clipboard` (resp. `gnome-clipboard`)
only when the desktop-environment variable matches and `qdbus`
(resp. `gdbus`) exists; empty when none of these are found. -/
theorem claim_linux_resolver (env : ClipEnv) :
    (env.isWSL = true → getLinuxMethods env = [Method.wslClipboard])
    ∧ (env.isWSL = false →
        getLinuxMethods env =
          linuxTools.filter (fun t => env.onPath t.toolName)
            ++ (if strContains (strToLower env.desktopEnv) "kde" && env.onPath "qdbus"
                then [Method.kdeClipboard] else [])
            ++ (if strContains (strToLower env.desktopEnv) "gnome" && env.onPath "gdbus"
                then [Method.gnomeClipboard] else []))
    ∧ (env.isWSL = false →
        (∀ t ∈ linuxTools, env.onPath t.toolName = false) →
        (strContains (strToLower env.desktopEnv) "kde" && env.onPath "qdbus") = false →
        (strContains (strToLower env.desktopEnv) "gnome" && env.onPath "gdbus") = false →
        getLinuxMethods env = []) := by
  have hmain : env.isWSL = false →
      getLinuxMethods env =
        linuxTools.filter (fun t => env.onPath t.toolName)
          ++ (if strContains (strToLower env.desktopEnv) "kde" && env.onPath "qdbus"
              then [Method.kdeClipboard] else [])
          ++ (if strContains (strToLower env.desktopEnv) "gnome" && env.onPath "gdbus"
              then [Method.gnomeClipboard] else []) := by
    intro h
    unfold getLinuxMethods
    rw [h]
    simp only [Bool.false_eq_true, if_false, probeTools_eq_filter]
    by_cases hk : (strContains (strToLower env.desktopEnv) "kde" && env.onPath "qdbus") = true
    <;> by_cases hg : (strContains (strToLower env.desktopEnv) "gnome" && env.onPath "gdbus") = true
    <;> simp [hk, hg, List.append_assoc]
  refine ⟨fun h => by simp [getLinuxMethods, h], hmain, fun h hnone hk hg => ?_⟩
  rw [hmain h, hk, hg]
  simp only [Bool.false_eq_true, if_false, List.append_nil]
  exact List.filter_eq_nil_iff.mpr (by intro t ht; simp [hnone t ht])

/-- C3 witness: a KDE desktop with `xclip` and `qdbus` on PATH resolves
to `[xclip, kde-clipboard]`, and a WSL host resolves to
`[wsl-clipboard]`. -/
theorem claim_linux_resolver_witness :
    getLinuxMethods kdeClipEnv = [Method.xclip, Method.kdeClipboard]
    ∧ getLinuxMethods wslClipEnv = [Method.wslClipboard] := by
  have hk := (claim_linux_resolver kdeClipEnv).2.1 (by decide)
  have hw := (claim_linux_resolver wslClipEnv).1 (by decide)
  exact ⟨by rw [hk]; decide, hw⟩

/-- C2: the copy loop tries the candidate methods strictly sequentially;
it returns `{method: m, success: true}` for the first method `m` whose
attempt succeeds, and no candidate after the first successful one is
ever attempted (the attempt trace stays within the failing prefix plus
the winner). -/
theorem claim_copy_sequential (env : CopyEnv) (ms : List Method) (m : Method)
    (rest : List Method)
    (hsplit : ms.dropWhile (fun x => !methodWins env x) = m :: rest) :
    tryMethods env ms =
      ((ms.takeWhile (fun x => !methodWins env x)).flatMap (attemptsOf env)
          ++ attemptsOf env m, some m)
    ∧ (∀ x ∈ (tryMethods env ms).1,
        x ∈ ms.takeWhile (fun y => !methodWins env y) ∨ x = m)
    ∧ (∀ s : String, s ≠ "" →
        (env.platform = OSTag.linux → env.hasWorkingTools = true) →
        ms = getFallbackMethods env →
        (copy env (JSVal.str s)).2 = Except.ok (CopyOutcome.copied m)) := by
  have heq := tryMethods_eq env ms m rest hsplit
  refine ⟨heq, ?_, ?_⟩
  · intro x hx
    rw [heq] at hx
    simp only [List.mem_append, List.mem_flatMap] at hx
    rcases hx with ⟨y, hy, hxy⟩ | hxm
    · exact Or.inl ((mem_attemptsOf env x y hxy) ▸ hy)
    · exact Or.inr (mem_attemptsOf env x m hxm)
  · intro s hs hwork hms
    have hcond : ¬(env.platform = OSTag.linux ∧ env.hasWorkingTools = false) := by
      rintro ⟨h1, h2⟩
      rw [hwork h1] at h2
      cases h2
    simp only [copy]
    rw [if_neg hs, if_neg hcond]
    simp only [← hms, heq]

/-- C2 witness: with `xclip` failing on a non-zero exit and `xsel`
succeeding, the loop attempts `[xclip, xsel]` in order and `copy`
returns success with method `xsel`. -/
theorem claim_copy_sequential_witness :
    (tryMethods seqEnv [Method.xclip, Method.xsel]).2 = some Method.xsel
    ∧ (copy seqEnv (JSVal.str "key")).2 = Except.ok (CopyOutcome.copied Method.xsel) := by
  have h := claim_copy_sequential seqEnv [Method.xclip, Method.xsel] Method.xsel [] (by decide)
  exact ⟨by rw [h.1], h.2.2 "key" (by decide) (fun _ => rfl) (by decide)⟩

/-- C1 (amended to nonempty input text): for every nonempty input text,
when every candidate clipboard method fails (no attempt and no
post-install retry succeeds), `copy` returns the manual-fallback result
with `success = false` whose `text` field equals the input text
unchanged, instead of throwing. -/
theorem claim_copy_total_failure (env : CopyEnv) (s : String) (hs : s ≠ "")
    (ha : ∀ m, env.attempt m ≠ AttemptResult.success)
    (hr : ∀ m, env.retry m ≠ AttemptResult.success) :
    (copy env (JSVal.str s)).2 = Except.ok (CopyOutcome.manual s)
    ∧ CopyOutcome.successFlag (CopyOutcome.manual s) = false
    ∧ CopyOutcome.textField (CopyOutcome.manual s) = some s := by
  refine ⟨?_, rfl, rfl⟩
  simp only [copy]
  rw [if_neg hs]
  by_cases hl : env.platform = OSTag.linux ∧ env.hasWorkingTools = false
  · rw [if_pos hl]
    by_cases hi : env.installOk = true
    · rw [if_pos hi]
      have hn := firstSuccess_none env ha (getLinuxMethods env.clipAfter)
      simp only [hn]
      rfl
    · rw [if_neg hi]
      rfl
  · rw [if_neg hl]
    have hn := tryMethods_none env (fun m => methodWins_false env m (ha m) (hr m))
      (getFallbackMethods env)
    simp only [hn]
    rfl

/-- C1 counterexample to the unrestricted claim: in `failEnv`, where no
backing executable is on PATH and every attempt fails, the empty input
text makes `copy` throw the invalid-text error rather than return the
`success = false` result carrying the text. -/
theorem claim_copy_total_failure_cex :
    (copy failEnv (JSVal.str "")).2 = Except.error CopyError.invalidText
    ∧ failEnv.attempt Method.pbcopy = AttemptResult.commandNotFound
    ∧ failEnv.clip.onPath "pbcopy" = false := by
  exact ⟨rfl, rfl, rfl⟩

/-- C1 witness: the amended claim at text `"hello"` in `failEnv`. -/
theorem claim_copy_total_failure_witness :
    (copy failEnv (JSVal.str "hello")).2 = Except.ok (CopyOutcome.manual "hello")
    ∧ CopyOutcome.successFlag (CopyOutcome.manual "hello") = false
    ∧ CopyOutcome.textField (CopyOutcome.manual "hello") = some "hello" :=
  claim_copy_total_failure failEnv "hello" (by decide)
    (fun m => by simp [failEnv]) (fun m => by simp [failEnv])

/-- C10: every empty-string or non-string input makes `copy` throw the
invalid-text error before any clipboard method is attempted (empty
trace), and consequently `clear`, which delegates to `copy('')`, always
fails in `SimpleClipboardManager`. -/
theorem claim_copy_invalid_text (env : CopyEnv) (v : JSVal)
    (h : isValidText v = false) :
    copy env v = ([], Except.error CopyError.invalidText)
    ∧ clear env = Except.error (CopyError.clearFailed CopyError.invalidText) := by
  constructor
  · cases v with
    | nonString => rfl
    | str s =>
      have hs : s = "" := by simpa [isValidText] using h
      subst hs
      rfl
  · rfl

/-- C10 witness: a non-string value in `failEnv`. -/
theorem claim_copy_invalid_text_witness :
    copy failEnv JSVal.nonString = ([], Except.error CopyError.invalidText)
    ∧ clear failEnv = Except.error (CopyError.clearFailed CopyError.invalidText) :=
  claim_copy_invalid_text failEnv JSVal.nonString rfl

theorem append_pub_ne (p : String) : p ++ ".pub" ≠ p := by
  intro h
  have hlen := congrArg String.length h
  rw [String.length_append] at hlen
  have h4 : String.length ".pub" = 4 := rfl
  omega

theorem fsSet_same (fs : FS) (p : String) (f : FSFile) : fsSet fs p f p = some f := by
  simp [fsSet]

theorem fsSet_other (fs : FS) (p : String) (f : FSFile) (q : String) (h : q ≠ p) :
    fsSet fs p f q = fs q := by
  simp [fsSet, h]

theorem fsRemove_other (fs : FS) (p q : String) (h : q ≠ p) : fsRemove fs p q = fs q := by
  simp [fsRemove, h]

theorem fsExists_remove_other (fs : FS) (p q : String) (h : q ≠ p) :
    fsExists (fsRemove fs p) q = fsExists fs q := by
  simp [fsExists, fsRemove_other fs p q h]

theorem fsExists_false_iff (fs : FS) (p : String) : fsExists fs p = false ↔ fs p = none := by
  unfold fsExists
  cases fs p <;> simp

theorem fsChmod_eq (fs : FS) (p : String) (f : FSFile) (mode : Nat) (h : fs p = some f) :
    fsChmod fs p mode = some (fsSet fs p { f with perm := mode }) := by
  simp [fsChmod, h]

theorem validateKeyParameters_invalid (kt : String) (ks : Nat) :
    validateKeyParameters kt ks = Except.error GenError.validation ↔ invalidPair kt ks := by
  unfold validateKeyParameters invalidPair supportedTypes
  by_cases h1 : kt ∉ (["rsa", "ed25519", "ecdsa"] : List String)
  · rw [if_pos h1]
    exact iff_of_true rfl (Or.inl h1)
  · rw [if_neg h1]
    by_cases h2 : kt = "rsa" ∧ ks ∉ ([2048, 3072, 4096] : List Nat)
    · rw [if_pos h2]
      exact iff_of_true rfl (Or.inr (Or.inl h2))
    · rw [if_neg h2]
      by_cases h3 : kt = "ecdsa" ∧ ks ∉ ([256, 384, 521] : List Nat)
      · rw [if_pos h3]
        exact iff_of_true rfl (Or.inr (Or.inr h3))
      · rw [if_neg h3]
        refine iff_of_false (by simp) ?_
        push_neg at h1
        rintro (hc | hc | hc)
        · exact hc h1
        · exact h2 hc
        · exact h3 hc

/-- C5: `buildSSHKeygenCommand` assembles one shell command line by
interpolating the user-supplied parameters into a single string (here a
`comment` containing a double quote breaks out of its quoting and a
`rm -rf ~` lands in the command line verbatim), so the parameters are
not passed as discrete arguments. -/
theorem claim_keygen_command_interpolation :
    buildSSHKeygenCommand "rsa" 2048 "/home/user/.ssh/id_rsa"
        "x\" -N \"\"; rm -rf ~; echo \"" "" =
      "ssh-keygen -t rsa -b 2048 -f \"/home/user/.ssh/id_rsa\" -C \"x\" -N \"\"; rm -rf ~; echo \"\" -N \"\""
    ∧ strContains
        (buildSSHKeygenCommand "rsa" 2048 "/home/user/.ssh/id_rsa"
          "x\" -N \"\"; rm -rf ~; echo \"" "")
        "\"; rm -rf ~;" = true := by
  exact ⟨rfl, by decide⟩

/-- C4 (amended): for every invalid `(type, size)` pair, `generateKeyPair`
fails before invoking the key-generation tool and leaves the filesystem
unchanged; the error is the `ValidationError` whenever the requested key
name does not already exist (or overwrite is set), but when the key
exists and overwrite is false the earlier existence check wins and the
error is the already-exists error instead. -/
theorem claim_generate_invalid_params (env : GenEnv) (dir : String) (fs : FS)
    (keyType : String) (keySize : Nat) (keyName comment passphrase : String)
    (overwrite : Bool) (hinv : invalidPair keyType keySize) :
    (generateKeyPair env dir fs keyType keySize keyName comment passphrase overwrite).1 = fs
    ∧ ((fsExists fs (pathJoin dir keyName) && !overwrite) = false →
        (generateKeyPair env dir fs keyType keySize keyName comment passphrase overwrite).2
          = Except.error GenError.validation)
    ∧ ((fsExists fs (pathJoin dir keyName) && !overwrite) = true →
        (generateKeyPair env dir fs keyType keySize keyName comment passphrase overwrite).2
          = Except.error (GenError.alreadyExists (pathJoin dir keyName))) := by
  have hv : validateKeyParameters keyType keySize = Except.error GenError.validation :=
    (validateKeyParameters_invalid keyType keySize).mpr hinv
  by_cases he : (fsExists fs (pathJoin dir keyName) && !overwrite) = true
  · have he' : fsExists fs (pathJoin dir keyName) = true ∧ overwrite = false := by
      simpa [Bool.and_eq_true, Bool.not_eq_true'] using he
    refine ⟨?_, fun hfalse => absurd he (by simp [hfalse]), fun _ => ?_⟩
    · simp [generateKeyPair, he'.1, he'.2]
    · simp [generateKeyPair, he'.1, he'.2]
  · have he' : ¬(fsExists fs (pathJoin dir keyName) = true ∧ overwrite = false) := by
      intro hc
      exact he (by simp [hc.1, hc.2])
    refine ⟨?_, fun _ => ?_, fun htrue => absurd htrue he⟩
    · simp [generateKeyPair, hv, if_neg he']
    · simp [generateKeyPair, hv, if_neg he']

/-- C4 counterexample to the unrestricted claim: with the key `d/k`
already present and `overwrite = false`, the invalid pair
`("dsa", 1024)` produces the already-exists error, not the validation
error — the existence check runs before validation. -/
theorem claim_generate_invalid_params_cex :
    (generateKeyPair genEnvPosix "d" fsOneKey "dsa" 1024 "k" "c" "" false).2
        = Except.error (GenError.alreadyExists "d/k")
    ∧ (generateKeyPair genEnvPosix "d" fsOneKey "dsa" 1024 "k" "c" "" false).2
        ≠ Except.error GenError.validation
    ∧ invalidPair "dsa" 1024 := by
  refine ⟨rfl, ?_, Or.inl (by decide)⟩
  rw [show (generateKeyPair genEnvPosix "d" fsOneKey "dsa" 1024 "k" "c" "" false).2
        = Except.error (GenError.alreadyExists "d/k") from rfl]
  simp

/-- C4 witness: the amended claim at `("dsa", 1024)` on the empty key
directory. -/
theorem claim_generate_invalid_params_witness :
    (generateKeyPair genEnvPosix "d" fsEmpty "dsa" 1024 "k" "c" "" false).1 = fsEmpty
    ∧ ((fsExists fsEmpty (pathJoin "d" "k") && !false) = false →
        (generateKeyPair genEnvPosix "d" fsEmpty "dsa" 1024 "k" "c" "" false).2
          = Except.error GenError.validation)
    ∧ ((fsExists fsEmpty (pathJoin "d" "k") && !false) = true →
        (generateKeyPair genEnvPosix "d" fsEmpty "dsa" 1024 "k" "c" "" false).2
          = Except.error (GenError.alreadyExists (pathJoin "d" "k"))) :=
  claim_generate_invalid_params genEnvPosix "d" fsEmpty "dsa" 1024 "k" "c" "" false
    (Or.inl (by decide))

/-- C6: `deleteKey` removes whichever of the private and public key
files exist (and touches no other path), returns exactly the parts
actually deleted, and fails with the not-found error if and only if
neither file existed; when it fails the filesystem is unchanged. -/
theorem claim_delete_key (dir : String) (fs : FS) (keyName : String) :
    ((deleteKey dir fs keyName).2 = Except.error (GenError.notFound keyName)
      ↔ fsExists fs (pathJoin dir keyName) = false
          ∧ fsExists fs (pathJoin dir keyName ++ ".pub") = false)
    ∧ ((deleteKey dir fs keyName).2 = Except.error (GenError.notFound keyName) →
        (deleteKey dir fs keyName).1 = fs)
    ∧ ((fsExists fs (pathJoin dir keyName) = true ∨
          fsExists fs (pathJoin dir keyName ++ ".pub") = true) →
        (deleteKey dir fs keyName).2 = Except.ok
          ((if fsExists fs (pathJoin dir keyName) then ["private"] else []) ++
            (if fsExists fs (pathJoin dir keyName ++ ".pub") then ["public"] else []),
            keyName))
    ∧ (deleteKey dir fs keyName).1 (pathJoin dir keyName) = none
    ∧ (deleteKey dir fs keyName).1 (pathJoin dir keyName ++ ".pub") = none
    ∧ (∀ q, q ≠ pathJoin dir keyName → q ≠ pathJoin dir keyName ++ ".pub" →
        (deleteKey dir fs keyName).1 q = fs q) := by
  have hne : pathJoin dir keyName ++ ".pub" ≠ pathJoin dir keyName :=
    append_pub_ne (pathJoin dir keyName)
  by_cases hP : fsExists fs (pathJoin dir keyName) = true
  · by_cases hQ : fsExists fs (pathJoin dir keyName ++ ".pub") = true
    · have hred : deleteKey dir fs keyName =
          (fsRemove (fsRemove fs (pathJoin dir keyName)) (pathJoin dir keyName ++ ".pub"),
            Except.ok (["private", "public"], keyName)) := by
        simp [deleteKey, hP, hQ,
          fsExists_remove_other fs (pathJoin dir keyName) (pathJoin dir keyName ++ ".pub") hne]
      rw [hred]
      refine ⟨by simp [hP], by simp,
        fun _ => by simp [hP, hQ], ?_, ?_, ?_⟩
      · simp [fsRemove, Ne.symm hne]
      · simp [fsRemove]
      · intro q hq1 hq2
        simp [fsRemove, hq1, hq2]
    · rw [Bool.not_eq_true] at hQ
      have hred : deleteKey dir fs keyName =
          (fsRemove fs (pathJoin dir keyName), Except.ok (["private"], keyName)) := by
        simp [deleteKey, hP, hQ,
          fsExists_remove_other fs (pathJoin dir keyName) (pathJoin dir keyName ++ ".pub") hne]
      rw [hred]
      refine ⟨by simp [hP], by simp,
        fun _ => by simp [hP, hQ], ?_, ?_, ?_⟩
      · simp [fsRemove]
      · have hq := (fsExists_false_iff fs (pathJoin dir keyName ++ ".pub")).mp hQ
        simp [fsRemove, hne, hq]
      · intro q hq1 hq2
        simp [fsRemove, hq1]
  · rw [Bool.not_eq_true] at hP
    by_cases hQ : fsExists fs (pathJoin dir keyName ++ ".pub") = true
    · have hred : deleteKey dir fs keyName =
          (fsRemove fs (pathJoin dir keyName ++ ".pub"), Except.ok (["public"], keyName)) := by
        simp [deleteKey, hP, hQ]
      rw [hred]
      refine ⟨by simp [hP, hQ], by simp,
        fun _ => by simp [hP, hQ], ?_, ?_, ?_⟩
      · have hp := (fsExists_false_iff fs (pathJoin dir keyName)).mp hP
        simp [fsRemove, Ne.symm hne, hp]
      · simp [fsRemove]
      · intro q hq1 hq2
        simp [fsRemove, hq2]
    · rw [Bool.not_eq_true] at hQ
      have hred : deleteKey dir fs keyName =
          (fs, Except.error (GenError.notFound keyName)) := by
        simp [deleteKey, hP, hQ]
      rw [hred]
      refine ⟨by simp [hP, hQ], fun _ => rfl, fun hc => ?_, ?_, ?_, fun q _ _ => rfl⟩
      · rcases hc with hc | hc
        · rw [hP] at hc; cases hc
        · rw [hQ] at hc; cases hc
      · exact (fsExists_false_iff fs (pathJoin dir keyName)).mp hP
      · exact (fsExists_false_iff fs (pathJoin dir keyName ++ ".pub")).mp hQ

/-- C6 witness: deleting the complete pair `d/k` / `d/k.pub` from
`fsPair` removes both parts, and the not-found characterisation holds. -/
theorem claim_delete_key_witness :
    (deleteKey "d" fsPair "k").2 = Except.ok (["private", "public"], "k")
    ∧ (deleteKey "d" fsPair "k").1 (pathJoin "d" "k") = none
    ∧ (deleteKey "d" fsPair "k").1 (pathJoin "d" "k" ++ ".pub") = none := by
  have h := claim_delete_key "d" fsPair "k"
  refine ⟨?_, h.2.2.2.1, h.2.2.2.2.1⟩
  have h3 := h.2.2.1 (Or.inl (by decide))
  rw [h3]
  rfl

theorem generate_success_posix (env : GenEnv) (dir : String) (fs : FS) (keyType : String)
    (keySize : Nat) (keyName comment passphrase : String) (overwrite : Bool)
    (he : ¬(fsExists fs (pathJoin dir keyName) && !overwrite) = true)
    (hv : validateKeyParameters keyType keySize = Except.ok ())
    (hk : env.keygenOk = true) (hp : env.posix = true) :
    generateKeyPair env dir fs keyType keySize keyName comment passphrase overwrite =
      (fsSet
          (fsSet
            (fsSet (fsSet fs (pathJoin dir keyName) env.keygenPriv)
              (pathJoin dir keyName ++ ".pub") env.keygenPub)
            (pathJoin dir keyName) { env.keygenPriv with perm := 0o600 })
          (pathJoin dir keyName ++ ".pub") { env.keygenPub with perm := 0o644 },
        Except.ok { privateKeyPath := pathJoin dir keyName,
                    publicKeyPath := pathJoin dir keyName ++ ".pub",
                    keyType := keyType, keySize := keySize,
                    fingerprint := env.fingerprint }) := by
  have hne2 : pathJoin dir keyName ≠ pathJoin dir keyName ++ ".pub" :=
    fun h => append_pub_ne (pathJoin dir keyName) h.symm
  have h1 : (fsSet (fsSet fs (pathJoin dir keyName) env.keygenPriv)
      (pathJoin dir keyName ++ ".pub") env.keygenPub) (pathJoin dir keyName)
      = some env.keygenPriv := by
    rw [fsSet_other _ _ _ _ hne2, fsSet_same]
  have hc1 := fsChmod_eq _ (pathJoin dir keyName) env.keygenPriv 0o600 h1
  have h2 : (fsSet
      (fsSet (fsSet fs (pathJoin dir keyName) env.keygenPriv)
        (pathJoin dir keyName ++ ".pub") env.keygenPub)
      (pathJoin dir keyName) { env.keygenPriv with perm := 0o600 })
      (pathJoin dir keyName ++ ".pub") = some env.keygenPub := by
    rw [fsSet_other _ _ _ _ (append_pub_ne (pathJoin dir keyName)), fsSet_same]
  have hc2 := fsChmod_eq _ (pathJoin dir keyName ++ ".pub") env.keygenPub 0o644 h2
  have h3 : fsExists
      (fsSet
        (fsSet
          (fsSet (fsSet fs (pathJoin dir keyName) env.keygenPriv)
            (pathJoin dir keyName ++ ".pub") env.keygenPub)
          (pathJoin dir keyName) { env.keygenPriv with perm := 0o600 })
        (pathJoin dir keyName ++ ".pub") { env.keygenPub with perm := 0o644 })
      (pathJoin dir keyName) = true := by
    unfold fsExists
    rw [fsSet_other _ _ _ _ hne2, fsSet_same]
    rfl
  have h4 : fsExists
      (fsSet
        (fsSet
          (fsSet (fsSet fs (pathJoin dir keyName) env.keygenPriv)
            (pathJoin dir keyName ++ ".pub") env.keygenPub)
          (pathJoin dir keyName) { env.keygenPriv with perm := 0o600 })
        (pathJoin dir keyName ++ ".pub") { env.keygenPub with perm := 0o644 })
      (pathJoin dir keyName ++ ".pub") = true := by
    unfold fsExists
    rw [fsSet_same]
    rfl
  simp [generateKeyPair, hv, hk, hp, hc1, hc2, finishGen, h3, h4]
  intro hx
  cases hov : overwrite with
  | true => rfl
  | false => exact absurd (by simp [hx, hov]) he

theorem generate_success_nonposix (env : GenEnv) (dir : String) (fs : FS) (keyType : String)
    (keySize : Nat) (keyName comment passphrase : String) (overwrite : Bool)
    (he : ¬(fsExists fs (pathJoin dir keyName) && !overwrite) = true)
    (hv : validateKeyParameters keyType keySize = Except.ok ())
    (hk : env.keygenOk = true) (hp : env.posix = false) :
    generateKeyPair env dir fs keyType keySize keyName comment passphrase overwrite =
      (fsSet (fsSet fs (pathJoin dir keyName) env.keygenPriv)
          (pathJoin dir keyName ++ ".pub") env.keygenPub,
        Except.ok { privateKeyPath := pathJoin dir keyName,
                    publicKeyPath := pathJoin dir keyName ++ ".pub",
                    keyType := keyType, keySize := keySize,
                    fingerprint := env.fingerprint }) := by
  have hne2 : pathJoin dir keyName ≠ pathJoin dir keyName ++ ".pub" :=
    fun h => append_pub_ne (pathJoin dir keyName) h.symm
  have h3 : fsExists (fsSet (fsSet fs (pathJoin dir keyName) env.keygenPriv)
      (pathJoin dir keyName ++ ".pub") env.keygenPub) (pathJoin dir keyName) = true := by
    unfold fsExists
    rw [fsSet_other _ _ _ _ hne2, fsSet_same]
    rfl
  have h4 : fsExists (fsSet (fsSet fs (pathJoin dir keyName) env.keygenPriv)
      (pathJoin dir keyName ++ ".pub") env.keygenPub)
      (pathJoin dir keyName ++ ".pub") = true := by
    unfold fsExists
    rw [fsSet_same]
    rfl
  simp [generateKeyPair, hv, hk, hp, finishGen, h3, h4]
  intro hx
  cases hov : overwrite with
  | true => rfl
  | false => exact absurd (by simp [hx, hov]) he

/-- C9: whenever `generateKeyPair` reports success on a POSIX system, the
private-key file's permissions have been set to 0600 and the public-key
file's to 0644 in the resulting filesystem state; on Windows the
permission step is skipped and both files keep exactly the modes the
key-generation tool gave them. -/
theorem claim_generate_permissions (env : GenEnv) (dir : String) (fs : FS)
    (keyType : String) (keySize : Nat) (keyName comment passphrase : String)
    (overwrite : Bool) (r : GenResult)
    (h : (generateKeyPair env dir fs keyType keySize keyName comment passphrase overwrite).2
          = Except.ok r) :
    r.privateKeyPath = pathJoin dir keyName
    ∧ r.publicKeyPath = pathJoin dir keyName ++ ".pub"
    ∧ (env.posix = true →
        (((generateKeyPair env dir fs keyType keySize keyName comment passphrase overwrite).1
            r.privateKeyPath).map FSFile.perm = some 0o600
          ∧ ((generateKeyPair env dir fs keyType keySize keyName comment passphrase
              overwrite).1 r.publicKeyPath).map FSFile.perm = some 0o644))
    ∧ (env.posix = false →
        (((generateKeyPair env dir fs keyType keySize keyName comment passphrase overwrite).1
            r.privateKeyPath).map FSFile.perm = some env.keygenPriv.perm
          ∧ ((generateKeyPair env dir fs keyType keySize keyName comment passphrase
              overwrite).1 r.publicKeyPath).map FSFile.perm = some env.keygenPub.perm)) := by
  have hne2 : pathJoin dir keyName ≠ pathJoin dir keyName ++ ".pub" :=
    fun hx => append_pub_ne (pathJoin dir keyName) hx.symm
  by_cases he : (fsExists fs (pathJoin dir keyName) && !overwrite) = true
  · exfalso
    have he' : fsExists fs (pathJoin dir keyName) = true ∧ overwrite = false := by
      simpa [Bool.and_eq_true, Bool.not_eq_true'] using he
    simp [generateKeyPair, he'.1, he'.2] at h
  · cases hvv : validateKeyParameters keyType keySize with
    | error e =>
      exfalso
      simp only [generateKeyPair, hvv] at h
      split at h <;> simp at h
    | ok u =>
      have hv : validateKeyParameters keyType keySize = Except.ok () := by
        cases u
        exact hvv
      by_cases hk : env.keygenOk = true
      · by_cases hp : env.posix = true
        · have hgen := generate_success_posix env dir fs keyType keySize keyName comment
            passphrase overwrite he hv hk hp
          rw [hgen] at h
          have hr : r = { privateKeyPath := pathJoin dir keyName,
                          publicKeyPath := pathJoin dir keyName ++ ".pub",
                          keyType := keyType, keySize := keySize,
                          fingerprint := env.fingerprint } := by
            simpa using h.symm
          subst hr
          rw [hgen]
          refine ⟨rfl, rfl, fun _ => ⟨?_, ?_⟩,
            fun hfalse => absurd hp (by rw [hfalse]; simp)⟩
          · show ((fsSet
                (fsSet
                  (fsSet (fsSet fs (pathJoin dir keyName) env.keygenPriv)
                    (pathJoin dir keyName ++ ".pub") env.keygenPub)
                  (pathJoin dir keyName) { env.keygenPriv with perm := 0o600 })
                (pathJoin dir keyName ++ ".pub") { env.keygenPub with perm := 0o644 })
              (pathJoin dir keyName)).map FSFile.perm = some 0o600
            rw [fsSet_other _ _ _ _ hne2, fsSet_same]
            rfl
          · show ((fsSet
                (fsSet
                  (fsSet (fsSet fs (pathJoin dir keyName) env.keygenPriv)
                    (pathJoin dir keyName ++ ".pub") env.keygenPub)
                  (pathJoin dir keyName) { env.keygenPriv with perm := 0o600 })
                (pathJoin dir keyName ++ ".pub") { env.keygenPub with perm := 0o644 })
              (pathJoin dir keyName ++ ".pub")).map FSFile.perm = some 0o644
            rw [fsSet_same]
            rfl
        · rw [Bool.not_eq_true] at hp
          have hgen := generate_success_nonposix env dir fs keyType keySize keyName comment
            passphrase overwrite he hv hk hp
          rw [hgen] at h
          have hr : r = { privateKeyPath := pathJoin dir keyName,
                          publicKeyPath := pathJoin dir keyName ++ ".pub",
                          keyType := keyType, keySize := keySize,
                          fingerprint := env.fingerprint } := by
            simpa using h.symm
          subst hr
          rw [hgen]
          refine ⟨rfl, rfl, fun htrue => absurd htrue (by rw [hp]; simp),
            fun _ => ⟨?_, ?_⟩⟩
          · show ((fsSet (fsSet fs (pathJoin dir keyName) env.keygenPriv)
                (pathJoin dir keyName ++ ".pub") env.keygenPub)
              (pathJoin dir keyName)).map FSFile.perm = some env.keygenPriv.perm
            rw [fsSet_other _ _ _ _ hne2, fsSet_same]
            rfl
          · show ((fsSet (fsSet fs (pathJoin dir keyName) env.keygenPriv)
                (pathJoin dir keyName ++ ".pub") env.keygenPub)
              (pathJoin dir keyName ++ ".pub")).map FSFile.perm = some env.keygenPub.perm
            rw [fsSet_same]
            rfl
      · exfalso
        rw [Bool.not_eq_true] at hk
        simp only [generateKeyPair, hv, hk] at h
        split at h <;> simp at h

/-- C9 witness: a successful POSIX generation into the empty directory
ends with mode 0600 on `d/k` and mode 0644 on `d/k.pub`. -/
theorem claim_generate_permissions_witness :
    (((generateKeyPair genEnvPosix "d" fsEmpty "rsa" 2048 "k" "c" "" false).1
        "d/k").map FSFile.perm = some 0o600)
    ∧ (((generateKeyPair genEnvPosix "d" fsEmpty "rsa" 2048 "k" "c" "" false).1
        "d/k.pub").map FSFile.perm = some 0o644) := by
  have h := claim_generate_permissions genEnvPosix "d" fsEmpty "rsa" 2048 "k" "c" "" false
    { privateKeyPath := "d/k", publicKeyPath := "d/k.pub", keyType := "rsa",
      keySize := 2048, fingerprint := "SHA256:abc" } (by rfl)
  exact h.2.2.1 rfl

theorem listStartsWith_refl (l : List Char) : listStartsWith l l = true := by
  induction l with
  | nil => rfl
  | cons c cs ih => simp [listStartsWith, ih]

theorem replaceFirstAux_only_suffix (pat : List Char) (hne : pat ≠ []) :
    ∀ q : List Char,
      (∀ i, i < q.length → listStartsWith ((q ++ pat).drop i) pat = false) →
      replaceFirstAux (q ++ pat) pat [] = q := by
  intro q
  induction q with
  | nil =>
    intro _
    rw [List.nil_append]
    cases pat with
    | nil => exact absurd rfl hne
    | cons c ps =>
      simp only [replaceFirstAux]
      rw [if_pos (listStartsWith_refl (c :: ps))]
      rw [List.drop_length]
      rfl
  | cons c q ih =>
    intro hocc
    have h0 := hocc 0 (by simp)
    rw [List.drop_zero] at h0
    rw [List.cons_append]
    rw [List.cons_append] at h0
    simp only [replaceFirstAux]
    rw [if_neg (by simp [h0])]
    congr 1
    apply ih
    intro i hi
    have := hocc (i + 1) (by simpa using Nat.succ_lt_succ hi)
    rw [List.cons_append, List.drop_succ_cons] at this
    exact this

theorem strReplaceFirst_only_suffix (p pat : String) (h : onlySuffixOccurrence p pat) :
    strReplaceFirst p pat "" ++ pat = p := by
  obtain ⟨hne, q, hq, hocc⟩ := h
  cases p with
  | mk pl =>
    cases pat with
    | mk patl =>
      have hq' : pl = q ++ patl := hq
      have hne' : patl ≠ [] := hne
      have hz : replaceFirstAux (q ++ patl) patl [] = q := by
        apply replaceFirstAux_only_suffix patl hne' q
        intro i hi
        have := hocc i hi
        rw [show String.toList (String.mk pl) = pl from rfl] at this
        rw [hq'] at this
        exact this
      show String.mk (replaceFirstAux pl patl []) ++ String.mk patl = String.mk pl
      rw [hq', hz]
      rfl

/-- C7 (amended): for every directory listing whose `.pub` entries all
exist in the filesystem, `listKeys` succeeds without throwing, each
record's `exists` flag reports whether the derived private-key file is
present (a missing private key yields `exists = false`, not an error),
and the private path is obtained by deleting the FIRST occurrence of
`.pub` from the public path; whenever `.pub` occurs nowhere before the
final suffix, this coincides with stripping that suffix, so
`privateKeyPath ++ ".pub" = publicKeyPath`. -/
theorem claim_list_private_path (dir : String) (listing : List String) (fs : FS)
    (hall : ∀ f ∈ listing, strEndsWith f ".pub" = true →
        fsExists fs (pathJoin dir f) = true) :
    ∃ ks, listKeys dir listing fs = Except.ok ks
      ∧ (∀ r ∈ ks, r.keyExists = fsExists fs r.privateKeyPath)
      ∧ (∀ r ∈ ks, r.privateKeyPath = strReplaceFirst r.publicKeyPath ".pub" "")
      ∧ (∀ r ∈ ks, onlySuffixOccurrence r.publicKeyPath ".pub" →
          r.privateKeyPath ++ ".pub" = r.publicKeyPath) := by
  unfold listKeys
  induction listing with
  | nil => exact ⟨[], rfl, by simp, by simp, by simp⟩
  | cons f rest ih =>
    have hall' : ∀ g ∈ rest, strEndsWith g ".pub" = true →
        fsExists fs (pathJoin dir g) = true :=
      fun g hg => hall g (List.mem_cons_of_mem f hg)
    obtain ⟨ks, hks, hx1, hx2, hx3⟩ := ih hall'
    by_cases hf : strEndsWith f ".pub" = true
    · have hex := hall f (List.mem_cons_self f rest) hf
      rw [fsExists] at hex
      obtain ⟨file, hfile⟩ := Option.isSome_iff_exists.mp hex
      refine ⟨{ name := strReplaceFirst f ".pub" ""
                publicKeyPath := pathJoin dir f
                privateKeyPath := strReplaceFirst (pathJoin dir f) ".pub" ""
                keyExists := fsExists fs (strReplaceFirst (pathJoin dir f) ".pub" "")
                size := file.content.length
                type := detectKeyType (strTrim file.content) } :: ks, ?_, ?_, ?_, ?_⟩
      · simp [listKeysGo, hf, hfile, hks]
      · intro r hr
        rcases List.mem_cons.mp hr with rfl | hr'
        · rfl
        · exact hx1 r hr'
      · intro r hr
        rcases List.mem_cons.mp hr with rfl | hr'
        · rfl
        · exact hx2 r hr'
      · intro r hr
        rcases List.mem_cons.mp hr with rfl | hr'
        · intro hsuf
          exact strReplaceFirst_only_suffix (pathJoin dir f) ".pub" hsuf
        · exact hx3 r hr'
    · rw [Bool.not_eq_true] at hf
      refine ⟨ks, ?_, hx1, hx2, hx3⟩
      simp only [listKeysGo, hf, Bool.false_eq_true, if_false]
      exact hks

/-- C7 counterexample: for the directory entry `a.pubx.pub` — whose name
contains `.pub` before the final suffix — `listKeys` derives
`privateKeyPath = "d/ax.pub"` by deleting the FIRST `.pub` occurrence,
so `privateKeyPath ++ ".pub"` differs from the record's public path,
contradicting the claim that the suffix is stripped from the end. -/
theorem claim_list_private_path_cex :
    listKeys "d" ["a.pubx.pub"] fsDotPub = Except.ok
      [{ name := "ax.pub", publicKeyPath := "d/a.pubx.pub",
         privateKeyPath := "d/ax.pub", keyExists := false, size := 11, type := "rsa" }]
    ∧ ("d/ax.pub" ++ ".pub" ≠ "d/a.pubx.pub") := by
  exact ⟨rfl, by decide⟩

/-- C7 witness: the amended claim on a directory holding the single
orphan public key `d/k1.pub` (no private file). -/
theorem claim_list_private_path_witness :
    ∃ ks, listKeys "d" ["k1.pub"] fsOrphan = Except.ok ks
      ∧ (∀ r ∈ ks, r.keyExists = fsExists fsOrphan r.privateKeyPath)
      ∧ (∀ r ∈ ks, r.privateKeyPath = strReplaceFirst r.publicKeyPath ".pub" "")
      ∧ (∀ r ∈ ks, onlySuffixOccurrence r.publicKeyPath ".pub" →
          r.privateKeyPath ++ ".pub" = r.publicKeyPath) := by
  apply claim_list_private_path
  intro f hf _
  simp only [List.mem_singleton] at hf
  subst hf
  decide

theorem listStartsWith_take (l p : List Char) :
    listStartsWith l p = true ↔ l.take p.length = p := by
  induction p generalizing l with
  | nil => simp [listStartsWith]
  | cons c ps ih =>
    cases l with
    | nil => simp [listStartsWith]
    | cons a as =>
      simp only [listStartsWith, List.length_cons, List.take_succ_cons, List.cons.injEq,
        Bool.and_eq_true, decide_eq_true_eq]
      constructor
      · rintro ⟨rfl, h⟩
        exact ⟨rfl, (ih as).mp h⟩
      · rintro ⟨rfl, h⟩
        exact ⟨rfl, (ih as).mpr h⟩

theorem startsWith_disjoint (t p1 p2 : String)
    (h1 : strStartsWith t p1 = true) (h2 : strStartsWith t p2 = true)
    (hlen : p1.toList.length ≤ p2.toList.length) :
    p2.toList.take p1.toList.length = p1.toList := by
  unfold strStartsWith at h1 h2
  have e1 := (listStartsWith_take _ _).mp h1
  have e2 := (listStartsWith_take _ _).mp h2
  calc p2.toList.take p1.toList.length
      = (t.toList.take p2.toList.length).take p1.toList.length := by rw [e2]
    _ = t.toList.take (min p1.toList.length p2.toList.length) := List.take_take _ _ _
    _ = t.toList.take p1.toList.length := by rw [Nat.min_eq_left hlen]
    _ = p1.toList := e1

theorem listStartsWith_trans (l m p : List Char)
    (h1 : listStartsWith l m = true) (h2 : listStartsWith m p = true) :
    listStartsWith l p = true := by
  rw [listStartsWith_take] at h1 h2 ⊢
  have hlen2 := congrArg List.length h2
  rw [List.length_take] at hlen2
  have hle : p.length ≤ m.length := by omega
  rw [← h1, List.take_take, Nat.min_eq_left hle] at h2
  exact h2

theorem detect_eq_rsa (t : String) :
    detectKeyType t = "rsa" ↔ strStartsWith t "ssh-rsa" = true := by
  unfold detectKeyType
  by_cases h1 : strStartsWith t "ssh-rsa" = true
  · rw [if_pos h1]
    simp [h1]
  · rw [if_neg h1]
    constructor
    · intro hcontra
      by_cases h2 : strStartsWith t "ssh-ed25519" = true
      · rw [if_pos h2] at hcontra
        exact absurd hcontra (by decide)
      · rw [if_neg h2] at hcontra
        by_cases h3 : strStartsWith t "ecdsa-sha2-" = true
        · rw [if_pos h3] at hcontra
          exact absurd hcontra (by decide)
        · rw [if_neg h3] at hcontra
          exact absurd hcontra (by decide)
    · intro hcontra
      exact absurd hcontra h1

theorem detect_eq_ed25519 (t : String) :
    detectKeyType t = "ed25519" ↔ strStartsWith t "ssh-ed25519" = true := by
  have himp : strStartsWith t "ssh-ed25519" = true → strStartsWith t "ssh-rsa" = false := by
    intro h2
    by_contra hc
    rw [Bool.not_eq_false] at hc
    have := startsWith_disjoint t "ssh-rsa" "ssh-ed25519" hc h2 (by decide)
    exact absurd this (by decide)
  unfold detectKeyType
  by_cases h2 : strStartsWith t "ssh-ed25519" = true
  · rw [if_neg (by simp [himp h2]), if_pos h2]
    simp [h2]
  · constructor
    · intro hcontra
      by_cases h1 : strStartsWith t "ssh-rsa" = true
      · rw [if_pos h1] at hcontra
        exact absurd hcontra (by decide)
      · rw [if_neg h1, if_neg h2] at hcontra
        by_cases h3 : strStartsWith t "ecdsa-sha2-" = true
        · rw [if_pos h3] at hcontra
          exact absurd hcontra (by decide)
        · rw [if_neg h3] at hcontra
          exact absurd hcontra (by decide)
    · intro hcontra
      exact absurd hcontra h2

theorem detect_eq_ecdsa (t : String) :
    detectKeyType t = "ecdsa" ↔ strStartsWith t "ecdsa-sha2-" = true := by
  have himp1 : strStartsWith t "ecdsa-sha2-" = true → strStartsWith t "ssh-rsa" = false := by
    intro h3
    by_contra hc
    rw [Bool.not_eq_false] at hc
    have := startsWith_disjoint t "ssh-rsa" "ecdsa-sha2-" hc h3 (by decide)
    exact absurd this (by decide)
  have himp2 : strStartsWith t "ecdsa-sha2-" = true →
      strStartsWith t "ssh-ed25519" = false := by
    intro h3
    by_contra hc
    rw [Bool.not_eq_false] at hc
    have := startsWith_disjoint t "ssh-ed25519" "ecdsa-sha2-" hc h3 (by decide)
    exact absurd this (by decide)
  unfold detectKeyType
  by_cases h3 : strStartsWith t "ecdsa-sha2-" = true
  · rw [if_neg (by simp [himp1 h3]), if_neg (by simp [himp2 h3]), if_pos h3]
    simp [h3]
  · constructor
    · intro hcontra
      by_cases h1 : strStartsWith t "ssh-rsa" = true
      · rw [if_pos h1] at hcontra
        exact absurd hcontra (by decide)
      · rw [if_neg h1] at hcontra
        by_cases h2 : strStartsWith t "ssh-ed25519" = true
        · rw [if_pos h2] at hcontra
          exact absurd hcontra (by decide)
        · rw [if_neg h2, if_neg h3] at hcontra
          exact absurd hcontra (by decide)
    · intro hcontra
      exact absurd hcontra h3

theorem listStartsWith_takeWhile (l : List Char) (q : Char → Bool) :
    listStartsWith l (l.takeWhile q) = true := by
  induction l with
  | nil => rfl
  | cons c cs ih =>
    by_cases h : q c = true
    · simp [List.takeWhile_cons, h, listStartsWith, ih]
    · simp [List.takeWhile_cons, h, listStartsWith]

theorem dropWhile_isSuffix (q : Char → Bool) (l : List Char) :
    ∃ t, t ++ l.dropWhile q = l := by
  induction l with
  | nil => exact ⟨[], rfl⟩
  | cons c cs ih =>
    by_cases h : q c = true
    · obtain ⟨t, ht⟩ := ih
      exact ⟨c :: t, by simp [List.dropWhile_cons, h, ht]⟩
    · exact ⟨[], by simp [List.dropWhile_cons, h]⟩

theorem dropWhile_dropWhile (q : Char → Bool) (l : List Char) :
    (l.dropWhile q).dropWhile q = l.dropWhile q := by
  induction l with
  | nil => rfl
  | cons c cs ih =>
    by_cases h : q c = true
    · simp [List.dropWhile_cons, h, ih]
    · simp [List.dropWhile_cons, h]

theorem dropWhile_length_le (q : Char → Bool) (l : List Char) :
    (l.dropWhile q).length ≤ l.length := by
  induction l with
  | nil => exact Nat.le_refl 0
  | cons c cs ih =>
    by_cases h : q c = true
    · simp only [List.dropWhile_cons, h, if_true]
      exact Nat.le_trans ih (by simp)
    · simp [List.dropWhile_cons, h]

theorem dropWhile_eq_self_of_prefix (q : Char → Bool) (l₁ l₂ : List Char)
    (hpre : ∃ t, l₁ ++ t = l₂) (h2 : l₂.dropWhile q = l₂) :
    l₁.dropWhile q = l₁ := by
  cases l₁ with
  | nil => rfl
  | cons c cs =>
    obtain ⟨t, ht⟩ := hpre
    have hqc : q c = false := by
      by_contra hcq
      rw [Bool.not_eq_false] at hcq
      rw [← ht] at h2
      simp only [List.cons_append, List.dropWhile_cons, hcq, if_true] at h2
      have hlen := congrArg List.length h2
      rw [List.length_cons] at hlen
      have hle := dropWhile_length_le q (cs ++ t)
      omega
    simp [List.dropWhile_cons, hqc]

theorem trimList_no_leading (l : List Char) :
    (trimList l).dropWhile isWsChar = trimList l := by
  unfold trimList
  apply dropWhile_eq_self_of_prefix isWsChar _ (l.dropWhile isWsChar)
  · obtain ⟨t, ht⟩ := dropWhile_isSuffix isWsChar (l.dropWhile isWsChar).reverse
    refine ⟨t.reverse, ?_⟩
    rw [← List.reverse_append, ht, List.reverse_reverse]
  · exact dropWhile_dropWhile isWsChar l

theorem strStartsWith_firstToken_trim (s : String) :
    strStartsWith (strTrim s) (firstToken (strTrim s)) = true := by
  show listStartsWith (strTrim s).toList
      (((strTrim s).toList.dropWhile isWsChar).takeWhile (fun c => !isWsChar c)) = true
  rw [show (strTrim s).toList.dropWhile isWsChar = (strTrim s).toList from
    trimList_no_leading s.toList]
  exact listStartsWith_takeWhile _ _

/-- C8 (amended): the `type` classification `listKeys` applies to the
trimmed public-key content is a PREFIX test on the whole content, not an
equality test on the first whitespace-delimited token: the type is `rsa`
exactly when the content begins with the characters `ssh-rsa` (even when
the first token strictly extends them), `ed25519` exactly when it begins
with `ssh-ed25519`, and `ecdsa` exactly when it begins with
`ecdsa-sha2-`; in particular, whenever the first token is exactly
`ssh-rsa` / `ssh-ed25519` / starts with `ecdsa-sha2-`, the assigned type
agrees with the specification's token rule. -/
theorem claim_detect_key_type (content : String) :
    (detectKeyType (strTrim content) = "rsa" ↔
        strStartsWith (strTrim content) "ssh-rsa" = true)
    ∧ (detectKeyType (strTrim content) = "ed25519" ↔
        strStartsWith (strTrim content) "ssh-ed25519" = true)
    ∧ (detectKeyType (strTrim content) = "ecdsa" ↔
        strStartsWith (strTrim content) "ecdsa-sha2-" = true)
    ∧ (firstToken (strTrim content) = "ssh-rsa" →
        detectKeyType (strTrim content) = "rsa")
    ∧ (firstToken (strTrim content) = "ssh-ed25519" →
        detectKeyType (strTrim content) = "ed25519")
    ∧ (strStartsWith (firstToken (strTrim content)) "ecdsa-sha2-" = true →
        detectKeyType (strTrim content) = "ecdsa") := by
  refine ⟨detect_eq_rsa _, detect_eq_ed25519 _, detect_eq_ecdsa _, ?_, ?_, ?_⟩
  · intro htok
    apply (detect_eq_rsa _).mpr
    have hpre := strStartsWith_firstToken_trim content
    rw [htok] at hpre
    exact hpre
  · intro htok
    apply (detect_eq_ed25519 _).mpr
    have hpre := strStartsWith_firstToken_trim content
    rw [htok] at hpre
    exact hpre
  · intro htok
    apply (detect_eq_ecdsa _).mpr
    have hpre := strStartsWith_firstToken_trim content
    exact listStartsWith_trans (strTrim content).toList
      (firstToken (strTrim content)).toList ("ecdsa-sha2-").toList hpre htok

/-- C8 counterexample: a public-key file whose content's first token is
`ssh-rsaEXTRA` (not `ssh-rsa`) is still classified `rsa` by `listKeys`,
because `detectKeyType` only tests `startsWith`; the specification's
token rule classifies it `unknown`. -/
theorem claim_detect_key_type_cex :
    listKeys "d" ["x.pub"] fsBadType = Except.ok
      [{ name := "x", publicKeyPath := "d/x.pub", privateKeyPath := "d/x",
         keyExists := false, size := 17, type := "rsa" }]
    ∧ firstToken "ssh-rsaEXTRA AAAA" = "ssh-rsaEXTRA"
    ∧ specDetectKeyType "ssh-rsaEXTRA AAAA" = "unknown" := by
  exact ⟨rfl, by decide, by decide⟩

/-- C8 witness: the amended characterisation at the well-formed content
`"ssh-rsa AAAA"`. -/
theorem claim_detect_key_type_witness :
    (detectKeyType (strTrim "ssh-rsa AAAA") = "rsa" ↔
        strStartsWith (strTrim "ssh-rsa AAAA") "ssh-rsa" = true)
    ∧ (detectKeyType (strTrim "ssh-rsa AAAA") = "ed25519" ↔
        strStartsWith (strTrim "ssh-rsa AAAA") "ssh-ed25519" = true)
    ∧ (detectKeyType (strTrim "ssh-rsa AAAA") = "ecdsa" ↔
        strStartsWith (strTrim "ssh-rsa AAAA") "ecdsa-sha2-" = true)
    ∧ (firstToken (strTrim "ssh-rsa AAAA") = "ssh-rsa" →
        detectKeyType (strTrim "ssh-rsa AAAA") = "rsa")
    ∧ (firstToken (strTrim "ssh-rsa AAAA") = "ssh-ed25519" →
        detectKeyType (strTrim "ssh-rsa AAAA") = "ed25519")
    ∧ (strStartsWith (firstToken (strTrim "ssh-rsa AAAA")) "ecdsa-sha2-" = true →
        detectKeyType (strTrim "ssh-rsa AAAA") = "ecdsa") :=
  claim_detect_key_type "ssh-rsa AAAA"

end SSHMan
